import Mathlib

/-!
Verification of the binary linear SGD learner (`classify::sgd`) of the
`meta` toolkit, against its natural-language specification.

The repository ships only the header `include/classify/classifier/sgd.h`
(declarations and documentation of `train`, `predict`, `reset` and the
private state `weights_`, `coeff_`, `bias_weight_`, together with the
hyperparameters).  The member-function bodies (the `.cpp` translation
unit) are not part of the source tree, so the operational behaviour is
modelled from the specification's §3–§4 step-by-step description, with
`double` embedded as the exact rationals `ℚ` (all operations involved are
field operations, so every spec assertion qualified "within floating-point
tolerance" becomes exact here).
-/

/-- Modelled from the spec: the pluggable loss-function strategy
(`loss::loss_function`, whose implementation is outside this header).
`loss` returns the loss value for a (margin, target) pair; `derivative`
returns the gradient-scaling factor (0 when no update is needed). -/
structure loss_function where
  loss : ℚ → Int → ℚ
  derivative : ℚ → Int → ℚ

/-- A sparse feature vector: ordered (feature id, value) pairs
(`sgd::counts_t` in the header). -/
def counts_t : Type := List (Nat × ℚ)

/-- Modelled from the spec: the external feature-vector source (forward
index, outside this header).  A document id resolves to its sparse
feature vector and its gold class label, or fails to resolve. -/
def forward_index : Type := Nat → Option (List (Nat × ℚ) × Nat)

/-- Modelled from the spec: the mutable learned state of an `sgd`
instance — the dense weight vector `weights_` (a total map, zero
everywhere it was never written), the lazy regularization scalar
`coeff_`, and the bias weight `bias_weight_`. -/
structure sgd_state where
  weights : Nat → ℚ
  coeff : ℚ
  bias_weight : ℚ

/-- The configuration of an `sgd` instance: positive/negative class
labels and the five hyperparameters of the header's constructor
(immutable after construction). -/
structure sgd_config where
  positive : Nat
  negative : Nat
  alpha : ℚ
  gamma : ℚ
  bias : ℚ
  lambda : ℚ
  max_iter : Nat

/-- An `sgd` learner instance: configuration, injected loss strategy,
and mutable learned state. -/
structure sgd where
  cfg : sgd_config
  loss : loss_function
  st : sgd_state

namespace sgd

/-- The all-zero initial learned state (construction-time state of the
header's `weights_`, `coeff_{1.0}`, `bias_weight_`). -/
def init_state : sgd_state :=
  { weights := fun _ => 0, coeff := 1, bias_weight := 0 }

/-- A freshly constructed, untrained learner with the given
configuration and loss strategy. -/
def mk_sgd (c : sgd_config) (L : loss_function) : sgd :=
  { cfg := c, loss := L, st := init_state }

/-- Dot product of the stored weight vector with a sparse feature
vector, as the training/prediction loop accumulates it. -/
def dot_product (w : Nat → ℚ) (doc : List (Nat × ℚ)) : ℚ :=
  doc.foldl (fun acc p => acc + w p.1 * p.2) 0

/-- Modelled from the spec: `sgd::predict(const counts_t&)` (body not in
the header) — the raw decision score
`coeff * dot(weights, features) + bias_weight * bias`. -/
def predict_counts (c : sgd_config) (s : sgd_state) (doc : List (Nat × ℚ)) : ℚ :=
  s.coeff * dot_product s.weights doc + s.bias_weight * c.bias

/-- Modelled from the spec: `sgd::predict(doc_id)` (body not in the
header) — resolve the document through the feature-vector source, then
score its sparse vector with the same formula. -/
def predict_doc (src : forward_index) (c : sgd_config) (s : sgd_state) (d : Nat) :
    Option ℚ :=
  (src d).map (fun p => predict_counts c s p.1)

/-- Learner-level prediction by document id. -/
def predict_id (m : sgd) (src : forward_index) (d : Nat) : Option ℚ :=
  predict_doc src m.cfg m.st d

/-- Modelled from the spec: `sgd::reset()` (body not in the header) —
wipe the learned state back to all-zero weights, `coeff = 1`,
`bias_weight = 0`; configuration and loss strategy untouched. -/
def reset (m : sgd) : sgd :=
  { m with st := init_state }

/-- The numerical-stability floor for `coeff` (spec §4.1 step e suggests
1e-9). -/
def coeff_floor : ℚ := 1 / 1000000000

/-- Modelled from the spec: the fold-back procedure — multiply every
stored weight by `coeff`, then reset `coeff` to 1 (the bias weight is
outside the feature-id space and is not touched). -/
def fold_back (s : sgd_state) : sgd_state :=
  { s with weights := fun i => s.weights i * s.coeff, coeff := 1 }

/-- Modelled from the spec: the lazy L2 regularization shrink,
`coeff *= (1 - α * λ)`. -/
def reg_shrink (c : sgd_config) (s : sgd_state) : sgd_state :=
  { s with coeff := s.coeff * (1 - c.alpha * c.lambda) }

/-- Modelled from the spec: the per-active-feature weight update of
§4.1 step d, `weights[fid] += (α * factor * feature_value) / coeff`. -/
def update_weights (alpha factor coeff : ℚ) (doc : List (Nat × ℚ))
    (w : Nat → ℚ) : Nat → ℚ :=
  doc.foldl (fun w p => Function.update w p.1 (w p.1 + alpha * factor * p.2 / coeff)) w

/-- The binary target of a document: +1 if its label equals the positive
class label, else −1 (§4.1 step b). -/
def target_of (c : sgd_config) (lbl : Nat) : Int :=
  if lbl = c.positive then 1 else -1

/-- Modelled from the spec: one per-example training update (§4.1 steps
a–e, whose code is not in the header): compute the margin, query the
loss strategy for the factor, update the active weights and the bias
weight if the factor is non-zero, apply the regularization shrink, and
fold back if `coeff` fell below the stability floor. -/
def train_one (c : sgd_config) (L : loss_function) (s : sgd_state)
    (doc : List (Nat × ℚ)) (lbl : Nat) : sgd_state :=
  let margin := predict_counts c s doc
  let factor := L.derivative margin (target_of c lbl)
  let s1 : sgd_state :=
    if factor = 0 then s
    else
      { s with
        weights := update_weights c.alpha factor s.coeff doc s.weights
        bias_weight := s.bias_weight + c.alpha * factor * c.bias }
  let s2 := reg_shrink c s1
  if s2.coeff < coeff_floor then fold_back s2 else s2

/-- Modelled from the spec: one training epoch (§4.1 step 1, code not in
the header) — visit the documents in the given order, failing with the
offending id when the source cannot resolve it, and accumulate the
aggregate error (total loss across the trained documents, the example
measure named in §4.1 step 2). -/
def run_epoch (c : sgd_config) (L : loss_function) (src : forward_index) :
    List Nat → sgd_state → ℚ → Except Nat (sgd_state × ℚ)
  | [], s, err => .ok (s, err)
  | d :: rest, s, err =>
    match src d with
    | none => .error d
    | some (doc, lbl) =>
      let margin := predict_counts c s doc
      run_epoch c L src rest (train_one c L s doc lbl)
        (err + L.loss margin (target_of c lbl))

/-- Modelled from the spec: the epoch loop (§4.1, code not in the
header) — run up to the given number of epochs, stopping early once an
epoch's aggregate error falls at or below γ. -/
def train_loop (c : sgd_config) (L : loss_function) (src : forward_index)
    (docs : List Nat) : Nat → sgd_state → Except Nat sgd_state
  | 0, s => .ok s
  | n + 1, s =>
    match run_epoch c L src docs s 0 with
    | .error d => .error d
    | .ok (s', err) =>
      if err ≤ c.gamma then .ok s' else train_loop c L src docs n s'

/-- Modelled from the spec: `sgd::train` (body not in the header) — a
no-op on empty input, otherwise the epoch loop with budget `max_iter`,
continuing from the current state (no reset first). -/
def train (c : sgd_config) (L : loss_function) (src : forward_index)
    (docs : List Nat) (s : sgd_state) : Except Nat sgd_state :=
  match docs with
  | [] => .ok s
  | _ :: _ => train_loop c L src docs c.max_iter s

/-- The epoch loop instrumented with the number of epochs actually run
(used to state the `max_iter` termination bound). -/
def train_loop_count (c : sgd_config) (L : loss_function) (src : forward_index)
    (docs : List Nat) : Nat → sgd_state → Except Nat (sgd_state × Nat)
  | 0, s => .ok (s, 0)
  | n + 1, s =>
    match run_epoch c L src docs s 0 with
    | .error d => .error d
    | .ok (s', err) =>
      if err ≤ c.gamma then .ok (s', 1)
      else
        match train_loop_count c L src docs n s' with
        | .error d => .error d
        | .ok (s'', k) => .ok (s'', k + 1)

/-- Whether an epoch-loop run of the given budget never triggers the
early stop (every epoch resolves and keeps the aggregate error above
γ). -/
def early_stop_free (c : sgd_config) (L : loss_function) (src : forward_index)
    (docs : List Nat) : Nat → sgd_state → Bool
  | 0, _ => true
  | n + 1, s =>
    match run_epoch c L src docs s 0 with
    | .error _ => false
    | .ok (s', err) =>
      decide (c.gamma < err) && early_stop_free c L src docs n s'

/-- The closed-form decision score as the spec's §4.1/§8 words state it:
`coeff * dot(weights, features) + bias_weight * bias` with the dot
product written as a sum over the sparse pairs.  Kept separate from
`predict_counts` so that the two can be compared. -/
def spec_score (w : Nat → ℚ) (coeff bw bias : ℚ) (doc : List (Nat × ℚ)) : ℚ :=
  coeff * (doc.map (fun p => w p.1 * p.2)).sum + bw * bias

end sgd

open sgd

/-! Concrete fixtures used by witnesses: a configuration with
α = 0.1, γ = 0, bias = 1, λ = 0, max_iter = 3, a loss strategy whose
loss and derivative are constantly 1, and a one-document source. -/

/-- Fixture configuration: positive label 1, negative label 0, α = 1/10,
γ = 0, bias = 1, λ = 0, max_iter = 3. -/
def cfg0 : sgd_config :=
  { positive := 1, negative := 0, alpha := 1/10, gamma := 0, bias := 1
    lambda := 0, max_iter := 3 }

/-- Fixture loss strategy: loss value and gradient factor constantly 1. -/
def loss0 : loss_function :=
  { loss := fun _ _ => 1, derivative := fun _ _ => 1 }

/-- Fixture source: document 0 has the single feature {id 5 ↦ 1} and the
positive label 1; every other id is unresolvable. -/
def src0 : forward_index :=
  fun d => if d = 0 then some ([(5, 1)], 1) else none

theorem dot_product_eq_sum (w : Nat → ℚ) (doc : List (Nat × ℚ)) :
    dot_product w doc = (doc.map (fun p => w p.1 * p.2)).sum := by
  suffices h : ∀ (l : List (Nat × ℚ)) (a : ℚ),
      l.foldl (fun acc p => acc + w p.1 * p.2) a
        = a + (l.map (fun p => w p.1 * p.2)).sum by
    simpa [dot_product] using h doc 0
  intro l
  induction l with
  | nil => intro a; simp
  | cons hd tl ih => intro a; simp [ih, add_assoc]

/-- C1: `predict` returns exactly the closed-form score
`coeff * dot(weights, features) + bias_weight * bias`, and the
document-id-based path computes the same formula as the sparse-vector
path on the resolved vector. -/
theorem predict_matches_closed_form (src : forward_index) (c : sgd_config)
    (s : sgd_state) (doc : List (Nat × ℚ)) (d lbl : Nat)
    (hres : src d = some (doc, lbl)) :
    predict_counts c s doc = spec_score s.weights s.coeff s.bias_weight c.bias doc
      ∧ predict_doc src c s d = some (predict_counts c s doc) := by
  constructor
  · simp [predict_counts, spec_score, dot_product_eq_sum]
  · simp [predict_doc, hres]

/-- Witness for C1 at the fixture learner and document 0. -/
theorem predict_matches_closed_form_witness :
    predict_counts cfg0 init_state [(5, 1)]
        = spec_score init_state.weights init_state.coeff init_state.bias_weight
            cfg0.bias [(5, 1)]
      ∧ predict_doc src0 cfg0 init_state 0
          = some (predict_counts cfg0 init_state [(5, 1)]) :=
  predict_matches_closed_form src0 cfg0 init_state [(5, 1)] 0 1 rfl

theorem update_weights_cons (a f cf : ℚ) (p : Nat × ℚ) (tl : List (Nat × ℚ))
    (w : Nat → ℚ) :
    update_weights a f cf (p :: tl) w
      = update_weights a f cf tl
          (Function.update w p.1 (w p.1 + a * f * p.2 / cf)) := rfl

theorem update_weights_not_mem (a f cf : ℚ) (fid : Nat) :
    ∀ (doc : List (Nat × ℚ)) (w : Nat → ℚ), fid ∉ doc.map Prod.fst →
      update_weights a f cf doc w fid = w fid := by
  intro doc
  induction doc with
  | nil => intro w _; rfl
  | cons p tl ih =>
    intro w hnm
    simp only [List.map_cons, List.mem_cons, not_or] at hnm
    rw [update_weights_cons, ih _ hnm.2, Function.update_noteq hnm.1]

theorem update_weights_mem (a f cf v : ℚ) (fid : Nat) :
    ∀ (doc : List (Nat × ℚ)) (w : Nat → ℚ), (doc.map Prod.fst).Nodup →
      (fid, v) ∈ doc →
      update_weights a f cf doc w fid = w fid + a * f * v / cf := by
  intro doc
  induction doc with
  | nil => intro w _ hmem; cases hmem
  | cons p tl ih =>
    intro w hnd hmem
    simp only [List.map_cons, List.nodup_cons] at hnd
    rcases List.mem_cons.mp hmem with heq | htl
    · subst heq
      rw [update_weights_cons, update_weights_not_mem a f cf fid tl]
      · simp
      · simpa using hnd.1
    · have hne : fid ≠ p.1 := by
        intro h
        exact hnd.1 (h ▸ List.mem_map.mpr ⟨(fid, v), htl, rfl⟩)
      rw [update_weights_cons, ih _ hnd.2 htl, Function.update_noteq hne]

/-- Helper: closed form of one per-example update at an active feature
with unique ids, non-zero `coeff` and non-zero factor — the stored
weight gains `(α · factor · value) / coeff`, the bias weight gains
`α · factor · bias`, and the effective weight after the shrink equals
`(1 − α·λ)` times (previous effective weight + `α · factor · value`). -/
theorem train_one_step_closed (c : sgd_config) (L : loss_function)
    (s : sgd_state) (doc : List (Nat × ℚ)) (lbl fid : Nat) (v : ℚ)
    (hnd : (doc.map Prod.fst).Nodup) (hmem : (fid, v) ∈ doc)
    (hc : s.coeff ≠ 0)
    (hf : L.derivative (predict_counts c s doc) (target_of c lbl) ≠ 0) :
    (update_weights c.alpha (L.derivative (predict_counts c s doc) (target_of c lbl))
        s.coeff doc s.weights) fid
      = s.weights fid
        + c.alpha * L.derivative (predict_counts c s doc) (target_of c lbl) * v
            / s.coeff
    ∧ s.coeff
        * (update_weights c.alpha
            (L.derivative (predict_counts c s doc) (target_of c lbl))
            s.coeff doc s.weights) fid
      = s.coeff * s.weights fid
        + c.alpha * L.derivative (predict_counts c s doc) (target_of c lbl) * v
    ∧ (train_one c L s doc lbl).bias_weight
      = s.bias_weight
        + c.alpha * L.derivative (predict_counts c s doc) (target_of c lbl) * c.bias
    ∧ (train_one c L s doc lbl).coeff * (train_one c L s doc lbl).weights fid
      = (1 - c.alpha * c.lambda)
        * (s.coeff * s.weights fid
          + c.alpha * L.derivative (predict_counts c s doc) (target_of c lbl) * v) := by
  have hupd :=
    update_weights_mem c.alpha
      (L.derivative (predict_counts c s doc) (target_of c lbl))
      s.coeff v fid doc s.weights hnd hmem
  have heff : s.coeff
      * (update_weights c.alpha
          (L.derivative (predict_counts c s doc) (target_of c lbl))
          s.coeff doc s.weights) fid
      = s.coeff * s.weights fid
        + c.alpha * L.derivative (predict_counts c s doc) (target_of c lbl) * v := by
    rw [hupd]; field_simp; ring
  refine ⟨hupd, heff, ?_, ?_⟩
  · simp only [train_one, if_neg hf, reg_shrink, fold_back]
    by_cases hfold :
        s.coeff * (1 - c.alpha * c.lambda) < coeff_floor <;> simp [hfold]
  · simp only [train_one, if_neg hf, reg_shrink, fold_back]
    by_cases hfold :
        s.coeff * (1 - c.alpha * c.lambda) < coeff_floor <;>
      simp only [hfold, if_true, if_false, one_mul] <;>
      linear_combination (1 - c.alpha * c.lambda) * heff

/-- Fixture configuration with α = 1 and λ = 1/2, so that the
regularization shrink multiplies `coeff` by 1/2. -/
def cfgC2 : sgd_config :=
  { positive := 1, negative := 0, alpha := 1, gamma := 0, bias := 0
    lambda := 1/2, max_iter := 1 }

/-- C2, counterexample to the claim as stated: with α = 1, λ = 1/2,
factor 1 and the single feature {id 0 ↦ 1}, the net change to the
effective weight `coeff * weights[0]` across the full per-example update
(weight update followed by the multiplicative shrink) is 1/2, not
α · factor · feature_value = 1: the shrink also scales the freshly added
contribution. -/
theorem train_one_net_change_counterexample :
    ¬ ((train_one cfgC2 loss0 init_state [(0, 1)] 1).coeff
          * (train_one cfgC2 loss0 init_state [(0, 1)] 1).weights 0
        - init_state.coeff * init_state.weights 0
      = cfgC2.alpha
          * loss0.derivative (predict_counts cfgC2 init_state [(0, 1)])
              (target_of cfgC2 1)
          * 1) := by
  have h :=
    (train_one_step_closed cfgC2 loss0 init_state [(0, 1)] 1 0 1
      (by decide) (by simp) (by norm_num [init_state])
      (by simp [loss0])).2.2.2
  rw [h]
  norm_num [cfgC2, loss0, init_state]

/-- C2, amended: when the factor is non-zero and `coeff ≠ 0`, step d
updates the stored weight of each active feature by
`+ (α · factor · value) / coeff` and the bias weight by
`+ α · factor · bias` with no coeff scaling; the net change to the
effective weight `coeff * weights[fid]` equals `α · factor · value`
immediately after the update, so that after the subsequent multiplicative
shrink the effective weight equals
`(1 − α·λ) · (previous effective weight + α · factor · value)`. -/
theorem train_one_effective_update (c : sgd_config) (L : loss_function)
    (s : sgd_state) (doc : List (Nat × ℚ)) (lbl fid : Nat) (v : ℚ)
    (hnd : (doc.map Prod.fst).Nodup) (hmem : (fid, v) ∈ doc)
    (hc : s.coeff ≠ 0)
    (hf : L.derivative (predict_counts c s doc) (target_of c lbl) ≠ 0) :
    (update_weights c.alpha (L.derivative (predict_counts c s doc) (target_of c lbl))
        s.coeff doc s.weights) fid
      = s.weights fid
        + c.alpha * L.derivative (predict_counts c s doc) (target_of c lbl) * v
            / s.coeff
    ∧ s.coeff
        * (update_weights c.alpha
            (L.derivative (predict_counts c s doc) (target_of c lbl))
            s.coeff doc s.weights) fid
      = s.coeff * s.weights fid
        + c.alpha * L.derivative (predict_counts c s doc) (target_of c lbl) * v
    ∧ (train_one c L s doc lbl).bias_weight
      = s.bias_weight
        + c.alpha * L.derivative (predict_counts c s doc) (target_of c lbl) * c.bias
    ∧ (train_one c L s doc lbl).coeff * (train_one c L s doc lbl).weights fid
      = (1 - c.alpha * c.lambda)
        * (s.coeff * s.weights fid
          + c.alpha * L.derivative (predict_counts c s doc) (target_of c lbl) * v) :=
  train_one_step_closed c L s doc lbl fid v hnd hmem hc hf

/-- Witness for the amended C2 at the fixture learner: α = 0.1, λ = 0,
factor 1, feature {id 5 ↦ 1}. -/
theorem train_one_effective_update_witness :
    (update_weights cfg0.alpha
        (loss0.derivative (predict_counts cfg0 init_state [(5, 1)]) (target_of cfg0 1))
        init_state.coeff [(5, 1)] init_state.weights) 5
      = init_state.weights 5
        + cfg0.alpha
            * loss0.derivative (predict_counts cfg0 init_state [(5, 1)])
                (target_of cfg0 1) * 1
            / init_state.coeff
    ∧ init_state.coeff
        * (update_weights cfg0.alpha
            (loss0.derivative (predict_counts cfg0 init_state [(5, 1)])
              (target_of cfg0 1))
            init_state.coeff [(5, 1)] init_state.weights) 5
      = init_state.coeff * init_state.weights 5
        + cfg0.alpha
            * loss0.derivative (predict_counts cfg0 init_state [(5, 1)])
                (target_of cfg0 1) * 1
    ∧ (train_one cfg0 loss0 init_state [(5, 1)] 1).bias_weight
      = init_state.bias_weight
        + cfg0.alpha
            * loss0.derivative (predict_counts cfg0 init_state [(5, 1)])
                (target_of cfg0 1) * cfg0.bias
    ∧ (train_one cfg0 loss0 init_state [(5, 1)] 1).coeff
        * (train_one cfg0 loss0 init_state [(5, 1)] 1).weights 5
      = (1 - cfg0.alpha * cfg0.lambda)
        * (init_state.coeff * init_state.weights 5
          + cfg0.alpha
              * loss0.derivative (predict_counts cfg0 init_state [(5, 1)])
                  (target_of cfg0 1) * 1) :=
  train_one_effective_update cfg0 loss0 init_state [(5, 1)] 1 5 1
    (by decide) (by simp) (by norm_num [init_state]) (by simp [loss0])

/-- A learned state whose regularization coefficient has fallen below
the stability floor, used to witness the fold-back invariant. -/
def low_coeff_state : sgd_state :=
  { weights := fun i => (i : ℚ), coeff := 1 / 2000000000, bias_weight := 7 }

/-- C3: when `coeff` has fallen below the numerical-stability floor, the
fold-back procedure (multiply every stored weight by `coeff`, then reset
`coeff` to 1) leaves every effective weight `coeff * weights[i]` — and
the bias weight — exactly equal to its value before the fold-back. -/
theorem fold_back_preserves_effective (s : sgd_state)
    (hlow : s.coeff < coeff_floor) :
    (∀ i, (fold_back s).coeff * (fold_back s).weights i = s.coeff * s.weights i)
      ∧ (fold_back s).bias_weight = s.bias_weight
      ∧ (fold_back s).coeff = 1 := by
  refine ⟨fun i => ?_, rfl, rfl⟩
  simp only [fold_back, one_mul]
  ring

/-- Witness for C3 at a state with `coeff = 1/2e9 < 1e-9`. -/
theorem fold_back_preserves_effective_witness :
    ((fold_back low_coeff_state).coeff * (fold_back low_coeff_state).weights 3
        = low_coeff_state.coeff * low_coeff_state.weights 3)
      ∧ (fold_back low_coeff_state).bias_weight = low_coeff_state.bias_weight
      ∧ (fold_back low_coeff_state).coeff = 1 := by
  have h := fold_back_preserves_effective low_coeff_state
    (by norm_num [low_coeff_state, coeff_floor])
  exact ⟨h.1 3, h.2.1, h.2.2⟩

/-- The regularization coefficient after one per-example update: the
shrunk value, or 1 when the shrunk value fell below the floor and was
folded back. -/
theorem train_one_coeff_eq (c : sgd_config) (L : loss_function)
    (s : sgd_state) (doc : List (Nat × ℚ)) (lbl : Nat) :
    (train_one c L s doc lbl).coeff
      = if s.coeff * (1 - c.alpha * c.lambda) < coeff_floor then 1
        else s.coeff * (1 - c.alpha * c.lambda) := by
  simp only [train_one, reg_shrink, fold_back]
  by_cases hf : L.derivative (predict_counts c s doc) (target_of c lbl) = 0 <;>
    by_cases hfold : s.coeff * (1 - c.alpha * c.lambda) < coeff_floor <;>
      simp [hf, hfold]

/-- C4, counterexample to the claim as stated: with λ = 0 (a legal
hyperparameter, used by the spec's own end-to-end scenario), a training
update leaves `coeff` unchanged — it does not strictly decrease within
the regularization update. -/
theorem coeff_decrease_counterexample :
    (train_one cfg0 loss0 init_state [(5, 1)] 1).coeff = init_state.coeff
      ∧ ¬ ((train_one cfg0 loss0 init_state [(5, 1)] 1).coeff
            < init_state.coeff) := by
  have h : (train_one cfg0 loss0 init_state [(5, 1)] 1).coeff = 1 := by
    rw [train_one_coeff_eq]
    rw [if_neg (by norm_num [cfg0, init_state, coeff_floor])]
    norm_num [cfg0, init_state]
  rw [h]
  norm_num [init_state]

theorem train_one_coeff_pos (c : sgd_config) (L : loss_function)
    (s : sgd_state) (doc : List (Nat × ℚ)) (lbl : Nat) :
    0 < (train_one c L s doc lbl).coeff := by
  rw [train_one_coeff_eq]
  by_cases hfold : s.coeff * (1 - c.alpha * c.lambda) < coeff_floor
  · rw [if_pos hfold]; norm_num
  · rw [if_neg hfold]
    have hge := not_lt.mp hfold
    have hfl : (0 : ℚ) < coeff_floor := by norm_num [coeff_floor]
    linarith

theorem run_epoch_coeff_pos (c : sgd_config) (L : loss_function)
    (src : forward_index) :
    ∀ (docs : List Nat) (s : sgd_state) (err0 : ℚ) (s' : sgd_state) (err' : ℚ),
      0 < s.coeff → run_epoch c L src docs s err0 = .ok (s', err') →
      0 < s'.coeff := by
  intro docs
  induction docs with
  | nil =>
    intro s err0 s' err' hpos hrun
    simp only [run_epoch] at hrun
    injection hrun with h
    rw [Prod.mk.injEq] at h
    obtain ⟨rfl, rfl⟩ := h
    exact hpos
  | cons d rest ih =>
    intro s err0 s' err' hpos hrun
    cases hd : src d with
    | none =>
      simp only [run_epoch, hd] at hrun
      exact Except.noConfusion hrun
    | some pr =>
      obtain ⟨doc, lbl⟩ := pr
      simp only [run_epoch, hd] at hrun
      exact ih _ _ _ _ (train_one_coeff_pos c L s doc lbl) hrun

theorem train_loop_coeff_pos (c : sgd_config) (L : loss_function)
    (src : forward_index) (docs : List Nat) :
    ∀ (n : Nat) (s s' : sgd_state), 0 < s.coeff →
      train_loop c L src docs n s = .ok s' → 0 < s'.coeff := by
  intro n
  induction n with
  | zero =>
    intro s s' hpos hloop
    simp only [train_loop] at hloop
    injection hloop with h
    exact h ▸ hpos
  | succ n ih =>
    intro s s' hpos hloop
    cases hE : run_epoch c L src docs s 0 with
    | error d =>
      simp only [train_loop, hE] at hloop
      exact Except.noConfusion hloop
    | ok pr =>
      obtain ⟨s1, err⟩ := pr
      have hpos1 : 0 < s1.coeff :=
        run_epoch_coeff_pos c L src docs s 0 s1 err hpos hE
      simp only [train_loop, hE] at hloop
      by_cases herr : err ≤ c.gamma
      · rw [if_pos herr] at hloop
        injection hloop with h
        exact h ▸ hpos1
      · rw [if_neg herr] at hloop
        exact ih s1 s' hpos1 hloop

/-- C4, amended: starting from any positive-`coeff` state, the
regularization shrink strictly decreases `coeff` whenever `0 < α·λ`
(with λ = 0 it leaves `coeff` unchanged), after every per-example update
`coeff` is strictly positive again (the shrunk value either stays at or
above the stability floor or is folded back to 1, so it never reaches 0
or underflows), and every state reachable through the training loop has
strictly positive `coeff`; in this exact arithmetic model weights are
always finite rationals, so no NaN/Inf outcome exists. -/
theorem coeff_invariant_amended (c : sgd_config) (L : loss_function)
    (src : forward_index) (docs : List Nat) (n : Nat) (s s' : sgd_state)
    (doc : List (Nat × ℚ)) (lbl : Nat) (hpos : 0 < s.coeff) :
    (0 < c.alpha * c.lambda → (reg_shrink c s).coeff < s.coeff)
      ∧ 0 < (train_one c L s doc lbl).coeff
      ∧ (train_loop c L src docs n s = .ok s' → 0 < s'.coeff) := by
  refine ⟨?_, train_one_coeff_pos c L s doc lbl,
    fun h => train_loop_coeff_pos c L src docs n s s' hpos h⟩
  intro hpos2
  simp only [reg_shrink]
  nlinarith

/-- Witness for the amended C4 with α = 1, λ = 1/2 and the fresh
state. -/
theorem coeff_invariant_amended_witness :
    (0 < cfgC2.alpha * cfgC2.lambda →
        (reg_shrink cfgC2 init_state).coeff < init_state.coeff)
      ∧ 0 < (train_one cfgC2 loss0 init_state [(0, 1)] 1).coeff
      ∧ (train_loop cfgC2 loss0 src0 [0] 0 init_state = .ok init_state →
          0 < init_state.coeff) :=
  coeff_invariant_amended cfgC2 loss0 src0 [0] 0 init_state init_state
    [(0, 1)] 1 (by norm_num [init_state])

/-- C5: `reset()` wipes the learned state back to all-zero weights,
`coeff = 1` and `bias_weight = 0`, leaves the configuration (all five
hyperparameters, the class labels) and the injected loss strategy
unchanged, is idempotent, and is safe on a freshly constructed
learner. -/
theorem reset_contract (m : sgd) :
    (reset m).cfg = m.cfg
      ∧ (reset m).loss = m.loss
      ∧ (∀ i, (reset m).st.weights i = 0)
      ∧ (reset m).st.coeff = 1
      ∧ (reset m).st.bias_weight = 0
      ∧ reset (reset m) = reset m
      ∧ reset (mk_sgd m.cfg m.loss) = mk_sgd m.cfg m.loss :=
  ⟨rfl, rfl, fun _ => rfl, rfl, rfl, rfl, rfl⟩

/-- C6: after `reset()`, prediction — by document id through any source,
and on any raw sparse vector — coincides with that of a freshly
constructed, untrained learner with the same configuration and loss
strategy. -/
theorem reset_predict_as_fresh (m : sgd) (src : forward_index) (d : Nat)
    (doc : List (Nat × ℚ)) :
    predict_id (reset m) src d = predict_id (mk_sgd m.cfg m.loss) src d
      ∧ predict_counts (reset m).cfg (reset m).st doc
        = predict_counts (mk_sgd m.cfg m.loss).cfg (mk_sgd m.cfg m.loss).st doc :=
  ⟨rfl, rfl⟩

/-- C7: if a first epoch-loop run of budget `m` never triggers the
early stop and ends in state `s1`, then continuing with a budget-`n` run
from `s1` produces exactly the result of a single run with budget
`m + n` from the initial state — training continues, it does not reset
learned state first. -/
theorem train_twice_eq_sum (c : sgd_config) (L : loss_function)
    (src : forward_index) (docs : List Nat) :
    ∀ (m : Nat) (n : Nat) (s s1 : sgd_state),
      early_stop_free c L src docs m s = true →
      train_loop c L src docs m s = .ok s1 →
      train_loop c L src docs n s1 = train_loop c L src docs (m + n) s := by
  intro m
  induction m with
  | zero =>
    intro n s s1 _ hloop
    simp only [train_loop] at hloop
    injection hloop with h
    rw [← h, Nat.zero_add]
  | succ m ih =>
    intro n s s1 hfree hloop
    cases hE : run_epoch c L src docs s 0 with
    | error d =>
      simp only [early_stop_free, hE] at hfree
      exact Bool.noConfusion hfree
    | ok pr =>
      obtain ⟨s', err⟩ := pr
      simp only [early_stop_free, hE, Bool.and_eq_true, decide_eq_true_eq]
        at hfree
      obtain ⟨hgt, hfree'⟩ := hfree
      have hnle : ¬ err ≤ c.gamma := not_le.mpr hgt
      simp only [train_loop, hE, if_neg hnle] at hloop
      rw [Nat.succ_add]
      simp only [train_loop, hE, if_neg hnle]
      exact ih n s' s1 hfree' hloop

/-- The learner state the fixture learner reaches after one epoch on
document 0. -/
def state1 : sgd_state := train_one cfg0 loss0 init_state [(5, 1)] 1

/-- Witness for C7 with a nontrivial first run of one full epoch: its
aggregate error 1 stays above γ = 0 (no early stop) and it reaches
`state1`, so continuing with budget 2 from `state1` equals a single run
of budget 1 + 2 from the fresh state. -/
theorem train_twice_eq_sum_witness :
    train_loop cfg0 loss0 src0 [0] 2 state1
      = train_loop cfg0 loss0 src0 [0] (1 + 2) init_state :=
  train_twice_eq_sum cfg0 loss0 src0 [0] 1 2 init_state state1
    (show early_stop_free cfg0 loss0 src0 [0] (0 + 1) init_state = true by
      norm_num [early_stop_free, run_epoch, src0, loss0, cfg0])
    (show train_loop cfg0 loss0 src0 [0] (0 + 1) init_state = .ok state1 by
      norm_num [train_loop, run_epoch, src0, loss0, cfg0, state1])

/-- The spec's §8 end-to-end configuration: λ = 0, α = 0.1, bias = 1,
one epoch. -/
def cfg8 : sgd_config :=
  { positive := 1, negative := 0, alpha := 1/10, gamma := 0, bias := 1
    lambda := 0, max_iter := 1 }

/-- C8: with λ = 0, α = 0.1, one epoch, a single positive document with
the sparse vector {id 5 ↦ 1}, bias = 1 and a loss strategy of factor 1,
training from the fresh state yields exactly `weights[5] = 0.1`,
`bias_weight = 0.1` and `coeff = 1`. -/
theorem end_to_end_scenario :
    (train cfg8 loss0 src0 [0] init_state).map
        (fun s => (s.weights 5, s.bias_weight, s.coeff))
      = .ok (1/10, 1/10, 1) := by
  norm_num [train, train_loop, run_epoch, train_one, predict_counts,
    dot_product, update_weights, reg_shrink, fold_back, coeff_floor,
    target_of, cfg8, loss0, src0, init_state, Except.map,
    Function.update_same]

theorem run_epoch_first_error (c : sgd_config) (L : loss_function)
    (src : forward_index) (d : Nat) (post : List Nat)
    (hnone : src d = none) :
    ∀ (pre : List Nat) (s : sgd_state) (err0 : ℚ),
      (∀ d' ∈ pre, (src d').isSome) →
      run_epoch c L src (pre ++ d :: post) s err0 = .error d := by
  intro pre
  induction pre with
  | nil =>
    intro s err0 _
    simp [run_epoch, hnone]
  | cons p tl ih =>
    intro s err0 hpre
    have hp : (src p).isSome := hpre p (List.mem_cons_self p tl)
    obtain ⟨pr, hpr⟩ := Option.isSome_iff_exists.mp hp
    obtain ⟨doc, lbl⟩ := pr
    simp only [List.cons_append, run_epoch, hpr]
    exact ih _ _ (fun d' hd' => hpre d' (List.mem_cons_of_mem p hd'))

/-- C9: if a document id in the training set cannot be resolved by the
feature-vector source (and every id before it resolves), the epoch fails
with a lookup error carrying the offending id, and `train` (with a
positive epoch budget) propagates that error — the document is never
silently skipped. -/
theorem train_lookup_error (c : sgd_config) (L : loss_function)
    (src : forward_index) (pre : List Nat) (d : Nat) (post : List Nat)
    (s : sgd_state) (err0 : ℚ)
    (hnone : src d = none) (hpre : ∀ d' ∈ pre, (src d').isSome)
    (hiter : 0 < c.max_iter) :
    run_epoch c L src (pre ++ d :: post) s err0 = .error d
      ∧ train c L src (pre ++ d :: post) s = .error d := by
  refine ⟨run_epoch_first_error c L src d post hnone pre s err0 hpre, ?_⟩
  obtain ⟨k, hk⟩ := Nat.exists_eq_succ_of_ne_zero (Nat.pos_iff_ne_zero.mp hiter)
  have hrun := run_epoch_first_error c L src d post hnone pre s 0 hpre
  cases pre with
  | nil =>
    simp only [List.nil_append] at hrun ⊢
    simp only [train, hk, train_loop, hrun]
  | cons p tl =>
    simp only [List.cons_append] at hrun ⊢
    simp only [train, hk, train_loop, hrun]

/-- Witness for C9: document 1 is unresolvable by the fixture source. -/
theorem train_lookup_error_witness :
    run_epoch cfg0 loss0 src0 ([] ++ 1 :: []) init_state 0 = .error 1
      ∧ train cfg0 loss0 src0 ([] ++ 1 :: []) init_state = .error 1 :=
  train_lookup_error cfg0 loss0 src0 [] 1 [] init_state 0
    (by simp [src0]) (by simp) (by norm_num [cfg0])

theorem run_epoch_total (c : sgd_config) (L : loss_function)
    (src : forward_index) :
    ∀ (docs : List Nat) (s : sgd_state) (err0 : ℚ),
      (∀ d ∈ docs, (src d).isSome) →
      ∃ out, run_epoch c L src docs s err0 = .ok out := by
  intro docs
  induction docs with
  | nil => intro s err0 _; exact ⟨(s, err0), rfl⟩
  | cons d rest ih =>
    intro s err0 hres
    have hd : (src d).isSome := hres d (List.mem_cons_self d rest)
    obtain ⟨pr, hpr⟩ := Option.isSome_iff_exists.mp hd
    obtain ⟨doc, lbl⟩ := pr
    obtain ⟨out, hout⟩ :=
      ih (train_one c L s doc lbl)
        (err0 + L.loss (predict_counts c s doc) (target_of c lbl))
        (fun d' hd' => hres d' (List.mem_cons_of_mem d hd'))
    exact ⟨out, by simp only [run_epoch, hpr]; exact hout⟩

theorem train_loop_count_spec (c : sgd_config) (L : loss_function)
    (src : forward_index) (docs : List Nat)
    (hres : ∀ d ∈ docs, (src d).isSome) :
    ∀ (n : Nat) (s : sgd_state),
      ∃ s' k, train_loop_count c L src docs n s = .ok (s', k) ∧ k ≤ n
        ∧ train_loop c L src docs n s = .ok s' := by
  intro n
  induction n with
  | zero => intro s; exact ⟨s, 0, rfl, Nat.le_refl 0, rfl⟩
  | succ n ih =>
    intro s
    obtain ⟨⟨s1, err⟩, hE⟩ := run_epoch_total c L src docs s 0 hres
    by_cases herr : err ≤ c.gamma
    · exact ⟨s1, 1,
        by simp only [train_loop_count, hE, if_pos herr],
        Nat.succ_le_succ (Nat.zero_le n),
        by simp only [train_loop, hE, if_pos herr]⟩
    · obtain ⟨s', k, h1, h2, h3⟩ := ih s1
      exact ⟨s', k + 1,
        by simp only [train_loop_count, hE, if_neg herr, h1],
        Nat.succ_le_succ h2,
        by simp only [train_loop, hE, if_neg herr]; exact h3⟩

/-- C10: on a non-empty, fully resolvable document set, `train`
terminates normally (no error) after at most `max_iter` epochs —
reaching the budget without meeting γ is a silent, normal termination
path. -/
theorem train_terminates (c : sgd_config) (L : loss_function)
    (src : forward_index) (docs : List Nat) (s : sgd_state)
    (hne : docs ≠ []) (hres : ∀ d ∈ docs, (src d).isSome) :
    ∃ s' k, train_loop_count c L src docs c.max_iter s = .ok (s', k)
      ∧ k ≤ c.max_iter
      ∧ train c L src docs s = .ok s' := by
  obtain ⟨s', k, h1, h2, h3⟩ :=
    train_loop_count_spec c L src docs hres c.max_iter s
  refine ⟨s', k, h1, h2, ?_⟩
  cases docs with
  | nil => exact absurd rfl hne
  | cons a tl => simpa [train] using h3

/-- Witness for C10 at the fixture learner on the resolvable document
0. -/
theorem train_terminates_witness :
    ∃ s' k, train_loop_count cfg0 loss0 src0 [0] cfg0.max_iter init_state
        = .ok (s', k)
      ∧ k ≤ cfg0.max_iter
      ∧ train cfg0 loss0 src0 [0] init_state = .ok s' :=
  train_terminates cfg0 loss0 src0 [0] init_state (by simp)
    (by simp [src0])
